import Mathlib

/-!
Verification development for the typed value codec and settings model of the
pyside6-settings repository.  The package sources themselves are not present in
this tree (only the test suite and an example), so the codec (`TypeParser` with
`parse_value`, `serialize_value`, `_encode_serialized_value`) and the settings
model (`BaseSettings` with `_save_settings` and attribute writes) are modelled
from the specification, adjusted only where the repository's own test suite
(src/tests) pins a divergent behaviour.
-/

/-- Modelled from the spec: the runtime values handled by the codec.  Python
scalars (`None`, `bool`, `int`, `str`) together with the typed values produced
by the built-in handlers (`pathlib.Path` kept as verbatim text, `datetime.date`,
`datetime.datetime` with an optional UTC offset `(negative, hours, minutes)`,
and the scheme/netloc/path decomposition of a parsed URL), plus nested
mappings (in insertion order) and sequences. -/
inductive Value where
  | vnone
  | vbool (b : Bool)
  | vint (n : Int)
  | vstr (s : String)
  | vpath (p : String)
  | vdate (y m d : Nat)
  | vdatetime (y mo da h mi s : Nat) (off : Option (Bool × Nat × Nat))
  | vurl (scheme netloc path : String)
  | vlist (items : List Value)
  | vdict (entries : List (String × Value))

mutual

/-- Modelled from the spec: structural equality on values, mirroring Python's
`==` on the corresponding runtime objects. -/
def beqValue : Value → Value → Bool
  | .vnone, .vnone => true
  | .vbool a, .vbool b => a == b
  | .vint a, .vint b => a == b
  | .vstr a, .vstr b => a == b
  | .vpath a, .vpath b => a == b
  | .vdate y m d, .vdate y2 m2 d2 => y == y2 && m == m2 && d == d2
  | .vdatetime y mo da h mi s off, .vdatetime y2 mo2 da2 h2 mi2 s2 off2 =>
      y == y2 && mo == mo2 && da == da2 && h == h2 && mi == mi2 && s == s2 && off == off2
  | .vurl a b c, .vurl a2 b2 c2 => a == a2 && b == b2 && c == c2
  | .vlist l, .vlist l2 => beqItems l l2
  | .vdict l, .vdict l2 => beqEntries l l2
  | _, _ => false

/-- Elementwise `beqValue` on sequences. -/
def beqItems : List Value → List Value → Bool
  | [], [] => true
  | v :: rest, v2 :: rest2 => beqValue v v2 && beqItems rest rest2
  | _, _ => false

/-- Elementwise `beqValue` on mapping entries. -/
def beqEntries : List (String × Value) → List (String × Value) → Bool
  | [], [] => true
  | (k, v) :: rest, (k2, v2) :: rest2 => k == k2 && beqValue v v2 && beqEntries rest rest2
  | _, _ => false

end

mutual

theorem beqValue_refl : ∀ v : Value, beqValue v v = true
  | .vnone => rfl
  | .vbool b => by simp [beqValue]
  | .vint n => by simp [beqValue]
  | .vstr s => by simp [beqValue]
  | .vpath p => by simp [beqValue]
  | .vdate y m d => by simp [beqValue]
  | .vdatetime y mo da h mi s off => by simp [beqValue]
  | .vurl a b c => by simp [beqValue]
  | .vlist l => by simp only [beqValue]; exact beqItems_refl l
  | .vdict l => by simp only [beqValue]; exact beqEntries_refl l

theorem beqItems_refl : ∀ l : List Value, beqItems l l = true
  | [] => rfl
  | v :: rest => by
      simp only [beqItems, Bool.and_eq_true]
      exact ⟨beqValue_refl v, beqItems_refl rest⟩

theorem beqEntries_refl : ∀ l : List (String × Value), beqEntries l l = true
  | [] => rfl
  | (k, v) :: rest => by
      simp only [beqEntries, Bool.and_eq_true, beq_self_eq_true, true_and]
      exact ⟨beqValue_refl v, beqEntries_refl rest⟩

end

mutual

theorem beqValue_eq : ∀ a b : Value, beqValue a b = true → a = b
  | .vnone, .vnone, _ => rfl
  | .vbool x, .vbool y, h => by simp [beqValue] at h; simp [h]
  | .vint x, .vint y, h => by simp [beqValue] at h; simp [h]
  | .vstr x, .vstr y, h => by simp [beqValue] at h; simp [h]
  | .vpath x, .vpath y, h => by simp [beqValue] at h; simp [h]
  | .vdate y m d, .vdate y2 m2 d2, h => by simp [beqValue] at h; simp [h]
  | .vdatetime y mo da h1 mi s off, .vdatetime y2 mo2 da2 h2 mi2 s2 off2, h => by
      simp [beqValue] at h; simp [h]
  | .vurl a b c, .vurl a2 b2 c2, h => by simp [beqValue] at h; simp [h]
  | .vlist l, .vlist l2, h => by
      simp only [beqValue] at h
      exact congrArg Value.vlist (beqItems_eq l l2 h)
  | .vdict l, .vdict l2, h => by
      simp only [beqValue] at h
      exact congrArg Value.vdict (beqEntries_eq l l2 h)
  | .vnone, .vbool _, h => by simp [beqValue] at h

theorem beqItems_eq : ∀ a b : List Value, beqItems a b = true → a = b
  | [], [], _ => rfl
  | v :: rest, v2 :: rest2, h => by
      simp only [beqItems, Bool.and_eq_true] at h
      rw [beqValue_eq v v2 h.1, beqItems_eq rest rest2 h.2]
  | [], _ :: _, h => by simp [beqItems] at h
  | _ :: _, [], h => by simp [beqItems] at h

theorem beqEntries_eq : ∀ a b : List (String × Value), beqEntries a b = true → a = b
  | [], [], _ => rfl
  | (k, v) :: rest, (k2, v2) :: rest2, h => by
      simp only [beqEntries, Bool.and_eq_true] at h
      obtain ⟨⟨hk, hv⟩, hr⟩ := h
      rw [beqValue_eq v v2 hv, beqEntries_eq rest rest2 hr, (by simpa using hk : k = k2)]
  | [], _ :: _, h => by simp [beqEntries] at h
  | _ :: _, [], h => by simp [beqEntries] at h

end

theorem beqValue_eq_false {a b : Value} (h : beqValue a b = false) : a ≠ b := by
  intro hab
  rw [hab, beqValue_refl] at h
  exact absurd h (by simp)

/-- Numeric value of a decimal digit character, `none` on anything else. -/
def digitVal (c : Char) : Option Nat :=
  if c = '0' then some 0
  else if c = '1' then some 1
  else if c = '2' then some 2
  else if c = '3' then some 3
  else if c = '4' then some 4
  else if c = '5' then some 5
  else if c = '6' then some 6
  else if c = '7' then some 7
  else if c = '8' then some 8
  else if c = '9' then some 9
  else none

/-- Character for a decimal digit (used by the zero-padded ISO renderings). -/
def digitChar (n : Nat) : Char :=
  if n = 1 then '1'
  else if n = 2 then '2'
  else if n = 3 then '3'
  else if n = 4 then '4'
  else if n = 5 then '5'
  else if n = 6 then '6'
  else if n = 7 then '7'
  else if n = 8 then '8'
  else if n = 9 then '9'
  else '0'

theorem digitVal_lt {c : Char} {k : Nat} (h : digitVal c = some k) : k < 10 := by
  unfold digitVal at h
  split_ifs at h <;> simp_all <;> omega

theorem digitChar_digitVal {c : Char} {k : Nat} (h : digitVal c = some k) :
    digitChar k = c := by
  unfold digitVal at h
  split_ifs at h <;>
    first
      | exact Option.noConfusion h
      | (rename_i hc
         simp only [Option.some.injEq] at h
         subst h
         subst hc
         rfl)

theorem digitVal_digitChar {k : Nat} (h : k < 10) : digitVal (digitChar k) = some k := by
  interval_cases k <;> rfl

theorem digitChar_ne_at {k : Nat} : digitChar k ≠ '@' := by
  unfold digitChar
  split_ifs <;> decide

theorem digitChar_ne_d {k : Nat} : digitChar k ≠ 'd' := by
  unfold digitChar
  split_ifs <;> decide

/-- Split a character list at the first occurrence of `sep` (Python's
`str.split(sep, 1)` when a separator is present). -/
def splitFirstChar (sep : Char) : List Char → Option (List Char × List Char)
  | [] => none
  | c :: rest =>
    if c = sep then some ([], rest)
    else
      match splitFirstChar sep rest with
      | some (a, b) => some (c :: a, b)
      | none => none

theorem splitFirstChar_eq {sep : Char} :
    ∀ {l a b : List Char}, splitFirstChar sep l = some (a, b) →
      l = a ++ sep :: b ∧ sep ∉ a
  | [], a, b, h => by simp [splitFirstChar] at h
  | c :: rest, a, b, h => by
      unfold splitFirstChar at h
      split at h
      · rename_i hc
        simp only [Option.some.injEq, Prod.mk.injEq] at h
        obtain ⟨ha, hb⟩ := h
        subst ha hb hc
        simp
      · rename_i hc
        split at h
        · rename_i a0 b0 hrec
          simp only [Option.some.injEq, Prod.mk.injEq] at h
          obtain ⟨ha, hb⟩ := h
          subst ha hb
          obtain ⟨hl, hna⟩ := splitFirstChar_eq hrec
          subst hl
          constructor
          · simp
          · simp only [List.mem_cons, not_or]
            exact ⟨fun e => hc e.symm, hna⟩
        · simp at h

theorem splitFirstChar_append {sep : Char} :
    ∀ {pre : List Char} (post : List Char), sep ∉ pre →
      splitFirstChar sep (pre ++ sep :: post) = some (pre, post)
  | [], post, _ => by simp [splitFirstChar]
  | c :: rest, post, h => by
      simp only [List.mem_cons, not_or] at h
      unfold splitFirstChar
      simp only [List.cons_append]
      rw [if_neg (fun e => h.1 e.symm), splitFirstChar_append post h.2]

/-- Modelled from the spec: Python's leap-year rule used by `datetime.date`. -/
def isLeapYear (y : Nat) : Bool := (y % 4 == 0 && y % 100 != 0) || (y % 400 == 0)

/-- Modelled from the spec: day count of a month, as validated by
`datetime.date`. -/
def daysInMonth (y m : Nat) : Nat :=
  if m = 2 then (if isLeapYear y then 29 else 28)
  else if m = 4 ∨ m = 6 ∨ m = 9 ∨ m = 11 then 30
  else 31

/-- Modelled from the spec: the `date` handler's parser (missing
`pyside6_settings.type_parser`), accepting the canonical ISO 8601 calendar
date `YYYY-MM-DD` and failing on anything malformed. -/
def parseDateChars : List Char → Option (Nat × Nat × Nat)
  | [c1, c2, c3, c4, '-', c5, c6, '-', c7, c8] => do
      let y1 ← digitVal c1
      let y2 ← digitVal c2
      let y3 ← digitVal c3
      let y4 ← digitVal c4
      let m1 ← digitVal c5
      let m2 ← digitVal c6
      let d1 ← digitVal c7
      let d2 ← digitVal c8
      let y := 1000 * y1 + 100 * y2 + 10 * y3 + y4
      let mo := 10 * m1 + m2
      let da := 10 * d1 + d2
      if 1 ≤ y ∧ 1 ≤ mo ∧ mo ≤ 12 ∧ 1 ≤ da ∧ da ≤ daysInMonth y mo then
        some (y, mo, da)
      else none
  | _ => none

/-- Modelled from the spec: `date.isoformat`, the `date` handler's serializer. -/
def renderDateChars (y mo da : Nat) : List Char :=
  [digitChar (y / 1000 % 10), digitChar (y / 100 % 10), digitChar (y / 10 % 10),
   digitChar (y % 10), '-', digitChar (mo / 10 % 10), digitChar (mo % 10), '-',
   digitChar (da / 10 % 10), digitChar (da % 10)]

theorem parseDateChars_render {l : List Char} {y mo da : Nat}
    (h : parseDateChars l = some (y, mo, da)) : renderDateChars y mo da = l := by
  unfold parseDateChars at h
  split at h
  · rename_i c1 c2 c3 c4 c5 c6 c7 c8
    simp only [bind, Option.bind_eq_some] at h
    obtain ⟨y1, h1, y2, h2, y3, h3, y4, h4, m1, h5, m2, h6, d1, h7, d2, h8, hif⟩ := h
    have l1 := digitVal_lt h1
    have l2 := digitVal_lt h2
    have l3 := digitVal_lt h3
    have l4 := digitVal_lt h4
    have l5 := digitVal_lt h5
    have l6 := digitVal_lt h6
    have l7 := digitVal_lt h7
    have l8 := digitVal_lt h8
    split at hif
    · simp only [Option.some.injEq, Prod.mk.injEq] at hif
      obtain ⟨hy, hmo, hda⟩ := hif
      subst hy hmo hda
      simp only [renderDateChars, List.cons.injEq, and_true]
      refine ⟨?_, ?_, ?_, ?_, trivial, ?_, ?_, trivial, ?_, ?_⟩
      · rw [(by omega : (1000 * y1 + 100 * y2 + 10 * y3 + y4) / 1000 % 10 = y1)]
        exact digitChar_digitVal h1
      · rw [(by omega : (1000 * y1 + 100 * y2 + 10 * y3 + y4) / 100 % 10 = y2)]
        exact digitChar_digitVal h2
      · rw [(by omega : (1000 * y1 + 100 * y2 + 10 * y3 + y4) / 10 % 10 = y3)]
        exact digitChar_digitVal h3
      · rw [(by omega : (1000 * y1 + 100 * y2 + 10 * y3 + y4) % 10 = y4)]
        exact digitChar_digitVal h4
      · rw [(by omega : (10 * m1 + m2) / 10 % 10 = m1)]
        exact digitChar_digitVal h5
      · rw [(by omega : (10 * m1 + m2) % 10 = m2)]
        exact digitChar_digitVal h6
      · rw [(by omega : (10 * d1 + d2) / 10 % 10 = d1)]
        exact digitChar_digitVal h7
      · rw [(by omega : (10 * d1 + d2) % 10 = d2)]
        exact digitChar_digitVal h8
    · simp at hif
  · simp at h

/-- Modelled from the spec: the UTC-offset suffix (`+HH:MM` or `-HH:MM`)
accepted by the `datetime` handler for offset-aware inputs; an empty suffix
yields a naive datetime. -/
def parseOffsetChars : List Char → Option (Option (Bool × Nat × Nat))
  | [] => some none
  | ['+', o1, o2, ':', o3, o4] => do
      let a ← digitVal o1
      let b ← digitVal o2
      let c ← digitVal o3
      let d ← digitVal o4
      if 10 * a + b ≤ 23 ∧ 10 * c + d ≤ 59 then some (some (false, 10 * a + b, 10 * c + d))
      else none
  | ['-', o1, o2, ':', o3, o4] => do
      let a ← digitVal o1
      let b ← digitVal o2
      let c ← digitVal o3
      let d ← digitVal o4
      if 10 * a + b ≤ 23 ∧ 10 * c + d ≤ 59 then some (some (true, 10 * a + b, 10 * c + d))
      else none
  | _ => none

/-- Modelled from the spec: rendering of the preserved UTC offset by
`datetime.isoformat`. -/
def renderOffsetChars : Option (Bool × Nat × Nat) → List Char
  | none => []
  | some (sgn, hh, mm) =>
      [if sgn then '-' else '+', digitChar (hh / 10 % 10), digitChar (hh % 10), ':',
       digitChar (mm / 10 % 10), digitChar (mm % 10)]

theorem parseOffsetChars_render {l : List Char} {off : Option (Bool × Nat × Nat)}
    (h : parseOffsetChars l = some off) : renderOffsetChars off = l := by
  unfold parseOffsetChars at h
  split at h
  · simp only [Option.some.injEq] at h
    subst h
    rfl
  · rename_i o1 o2 o3 o4
    simp only [bind, Option.bind_eq_some] at h
    obtain ⟨a, h1, b, h2, c, h3, d, h4, hif⟩ := h
    have l1 := digitVal_lt h1
    have l2 := digitVal_lt h2
    have l3 := digitVal_lt h3
    have l4 := digitVal_lt h4
    split at hif
    · simp only [Option.some.injEq] at hif
      subst hif
      simp only [renderOffsetChars, if_neg (by simp : ¬False), List.cons.injEq, and_true]
      refine ⟨by simp, ?_, ?_, trivial, ?_, ?_⟩
      · rw [(by omega : (10 * a + b) / 10 % 10 = a)]
        exact digitChar_digitVal h1
      · rw [(by omega : (10 * a + b) % 10 = b)]
        exact digitChar_digitVal h2
      · rw [(by omega : (10 * c + d) / 10 % 10 = c)]
        exact digitChar_digitVal h3
      · rw [(by omega : (10 * c + d) % 10 = d)]
        exact digitChar_digitVal h4
    · simp at hif
  · rename_i o1 o2 o3 o4
    simp only [bind, Option.bind_eq_some] at h
    obtain ⟨a, h1, b, h2, c, h3, d, h4, hif⟩ := h
    have l1 := digitVal_lt h1
    have l2 := digitVal_lt h2
    have l3 := digitVal_lt h3
    have l4 := digitVal_lt h4
    split at hif
    · simp only [Option.some.injEq] at hif
      subst hif
      simp only [renderOffsetChars, List.cons.injEq, and_true]
      refine ⟨by simp, ?_, ?_, trivial, ?_, ?_⟩
      · rw [(by omega : (10 * a + b) / 10 % 10 = a)]
        exact digitChar_digitVal h1
      · rw [(by omega : (10 * a + b) % 10 = b)]
        exact digitChar_digitVal h2
      · rw [(by omega : (10 * c + d) / 10 % 10 = c)]
        exact digitChar_digitVal h3
      · rw [(by omega : (10 * c + d) % 10 = d)]
        exact digitChar_digitVal h4
    · simp at hif
  · simp at h

/-- Modelled from the spec: the time-of-day part `HH:MM:SS` of the `datetime`
handler's parser, followed by the optional UTC offset. -/
def parseTimeChars : List Char → Option (Nat × Nat × Nat × Option (Bool × Nat × Nat))
  | t1 :: t2 :: ':' :: t3 :: t4 :: ':' :: t5 :: t6 :: rest => do
      let a1 ← digitVal t1
      let a2 ← digitVal t2
      let b1 ← digitVal t3
      let b2 ← digitVal t4
      let e1 ← digitVal t5
      let e2 ← digitVal t6
      let off ← parseOffsetChars rest
      if 10 * a1 + a2 ≤ 23 ∧ 10 * b1 + b2 ≤ 59 ∧ 10 * e1 + e2 ≤ 59 then
        some (10 * a1 + a2, 10 * b1 + b2, 10 * e1 + e2, off)
      else none
  | _ => none

/-- Modelled from the spec: rendering of the time-of-day part by
`datetime.isoformat`. -/
def renderTimeChars (h mi s : Nat) (off : Option (Bool × Nat × Nat)) : List Char :=
  digitChar (h / 10 % 10) :: digitChar (h % 10) :: ':' :: digitChar (mi / 10 % 10) ::
    digitChar (mi % 10) :: ':' :: digitChar (s / 10 % 10) :: digitChar (s % 10) ::
    renderOffsetChars off

theorem parseTimeChars_render {l : List Char} {h mi s : Nat}
    {off : Option (Bool × Nat × Nat)}
    (hp : parseTimeChars l = some (h, mi, s, off)) : renderTimeChars h mi s off = l := by
  unfold parseTimeChars at hp
  split at hp
  · rename_i t1 t2 t3 t4 t5 t6 rest
    simp only [bind, Option.bind_eq_some] at hp
    obtain ⟨a1, h1, a2, h2, b1, h3, b2, h4, e1, h5, e2, h6, off0, hoff, hif⟩ := hp
    have l1 := digitVal_lt h1
    have l2 := digitVal_lt h2
    have l3 := digitVal_lt h3
    have l4 := digitVal_lt h4
    have l5 := digitVal_lt h5
    have l6 := digitVal_lt h6
    split at hif
    · simp only [Option.some.injEq, Prod.mk.injEq] at hif
      obtain ⟨hh, hmi, hs, ho⟩ := hif
      subst hh hmi hs ho
      simp only [renderTimeChars, List.cons.injEq]
      refine ⟨?_, ?_, trivial, ?_, ?_, trivial, ?_, ⟨?_, parseOffsetChars_render hoff⟩⟩
      · rw [(by omega : (10 * a1 + a2) / 10 % 10 = a1)]
        exact digitChar_digitVal h1
      · rw [(by omega : (10 * a1 + a2) % 10 = a2)]
        exact digitChar_digitVal h2
      · rw [(by omega : (10 * b1 + b2) / 10 % 10 = b1)]
        exact digitChar_digitVal h3
      · rw [(by omega : (10 * b1 + b2) % 10 = b2)]
        exact digitChar_digitVal h4
      · rw [(by omega : (10 * e1 + e2) / 10 % 10 = e1)]
        exact digitChar_digitVal h5
      · rw [(by omega : (10 * e1 + e2) % 10 = e2)]
        exact digitChar_digitVal h6
    · simp at hif
  · simp at hp

/-- Modelled from the spec: the `datetime` handler's parser (missing
`pyside6_settings.type_parser`), accepting the canonical ISO 8601 date-time
`YYYY-MM-DDTHH:MM:SS` with an optional preserved UTC offset, and failing on
anything malformed. -/
def parseDateTimeChars (l : List Char) :
    Option (Nat × Nat × Nat × Nat × Nat × Nat × Option (Bool × Nat × Nat)) :=
  match splitFirstChar 'T' l with
  | some (dpart, tpart) => do
      let (y, mo, da) ← parseDateChars dpart
      let (h, mi, s, off) ← parseTimeChars tpart
      some (y, mo, da, h, mi, s, off)
  | none => none

/-- Modelled from the spec: `datetime.isoformat`, the serializer applied to
datetime values. -/
def renderDateTimeChars (y mo da h mi s : Nat) (off : Option (Bool × Nat × Nat)) :
    List Char :=
  renderDateChars y mo da ++ 'T' :: renderTimeChars h mi s off

theorem parseDateTimeChars_render {l : List Char}
    {y mo da h mi s : Nat} {off : Option (Bool × Nat × Nat)}
    (hp : parseDateTimeChars l = some (y, mo, da, h, mi, s, off)) :
    renderDateTimeChars y mo da h mi s off = l := by
  unfold parseDateTimeChars at hp
  split at hp
  · rename_i dpart tpart hsplit
    simp only [bind, Option.bind_eq_some] at hp
    obtain ⟨⟨y0, mo0, da0⟩, hd, ⟨h0, mi0, s0, off0⟩, ht, heq⟩ := hp
    simp only [Option.some.injEq, Prod.mk.injEq] at heq
    obtain ⟨hy, hmo, hda, hh, hmi, hs, ho⟩ := heq
    subst hy hmo hda hh hmi hs ho
    obtain ⟨hl, -⟩ := splitFirstChar_eq hsplit
    subst hl
    rw [renderDateTimeChars, parseDateChars_render hd, parseTimeChars_render ht]
  · simp at hp

/-- Modelled from the spec: characters allowed in a URL scheme (lower-case
letters, digits, `+`, `-`, `.`), as validated when decomposing a URL. -/
def isSchemeChar (c : Char) : Bool := c.isLower || c.isDigit || c = '+' || c = '-' || c = '.'

/-- Modelled from the spec: the `url` handler's parser (missing
`pyside6_settings.type_parser`), decomposing `scheme://netloc/path` into a
structured record and failing when the text is not of that shape. -/
def parseUrlChars (l : List Char) : Option (List Char × List Char × List Char) :=
  match splitFirstChar ':' l with
  | some (sch, rest) =>
    match rest with
    | '/' :: '/' :: r =>
      if sch ≠ [] ∧ sch.all isSchemeChar then
        some (sch, r.takeWhile (fun c => c ≠ '/'), r.dropWhile (fun c => c ≠ '/'))
      else none
    | _ => none
  | none => none

/-- Modelled from the spec: recomposition of a decomposed URL to its canonical
string, the `url` handler's serializer. -/
def renderUrlChars (sch net pa : List Char) : List Char :=
  sch ++ ':' :: '/' :: '/' :: (net ++ pa)

theorem parseUrlChars_eq {l sch net pa : List Char}
    (h : parseUrlChars l = some (sch, net, pa)) :
    renderUrlChars sch net pa = l ∧ sch ≠ [] ∧ sch.all isSchemeChar = true := by
  unfold parseUrlChars at h
  split at h
  · rename_i sch0 rest hsplit
    split at h
    · rename_i r
      split at h
      · rename_i hcond
        simp only [Option.some.injEq, Prod.mk.injEq] at h
        obtain ⟨hsch, hnet, hpa⟩ := h
        subst hsch hnet hpa
        obtain ⟨hl, -⟩ := splitFirstChar_eq hsplit
        subst hl
        exact ⟨by rw [renderUrlChars, List.takeWhile_append_dropWhile], hcond.1, hcond.2⟩
      · simp at h
    · simp at h
  · simp at h

theorem string_mk_data (s : String) : String.mk s.data = s := rfl

theorem string_data_inj {a b : String} (h : a.data = b.data) : a = b := by
  cases a
  cases b
  exact congrArg String.mk h

/-- ISO rendering of a date value as a string. -/
def renderDate (y mo da : Nat) : String := String.mk (renderDateChars y mo da)

/-- ISO rendering of a datetime value as a string. -/
def renderDateTime (y mo da h mi s : Nat) (off : Option (Bool × Nat × Nat)) : String :=
  String.mk (renderDateTimeChars y mo da h mi s off)

/-- Canonical string of a decomposed URL. -/
def renderUrl (scheme netloc path : String) : String :=
  String.mk (renderUrlChars scheme.data netloc.data path.data)

/-- Modelled from the spec: the `path` handler's parser — the text is kept
verbatim (separators are not normalized). -/
def parse_path (payload : String) : Except String Value := .ok (.vpath payload)

/-- Modelled from the spec: the `date` handler's parser; malformed input fails
with a value-format error. -/
def parse_date (payload : String) : Except String Value :=
  match parseDateChars payload.data with
  | some (y, mo, da) => .ok (.vdate y mo da)
  | none => .error ("Invalid isoformat string: " ++ payload)

/-- Modelled from the spec: the `datetime` handler's parser; malformed input
fails with a value-format error. -/
def parse_datetime (payload : String) : Except String Value :=
  match parseDateTimeChars payload.data with
  | some (y, mo, da, h, mi, s, off) => .ok (.vdatetime y mo da h mi s off)
  | none => .error ("Invalid isoformat string: " ++ payload)

/-- Modelled from the spec: the `url` handler's parser, decomposing the text
into a scheme/netloc/path record. -/
def parse_url (payload : String) : Except String Value :=
  match parseUrlChars payload.data with
  | some (sch, net, pa) => .ok (.vurl (String.mk sch) (String.mk net) (String.mk pa))
  | none => .error ("Invalid URL: " ++ payload)

/-- Modelled from the spec: the pre-registered handler registry of `TypeParser`
(missing `pyside6_settings.type_parser`), mapping each built-in keyword to its
parser. -/
def lookupParser (kw : String) : Option (String → Except String Value) :=
  if kw = "path" then some parse_path
  else if kw = "date" then some parse_date
  else if kw = "datetime" then some parse_datetime
  else if kw = "url" then some parse_url
  else none

/-- Modelled from the spec: the string case of `TypeParser.parse_value`
(missing `pyside6_settings.type_parser`).  A string starting with `@` and
containing a space is split into keyword and payload; registered keywords
dispatch to their parser (errors propagate), anything else passes through
unchanged. -/
def parseTaggedChars (s : String) : List Char → Except String Value
  | '@' :: rest =>
    match splitFirstChar ' ' rest with
    | some (kw, payload) =>
      match lookupParser (String.mk kw) with
      | some f => f (String.mk payload)
      | none => .ok (.vstr s)
    | none => .ok (.vstr s)
  | _ => .ok (.vstr s)

/-- String case of `parse_value`, applied to the string's characters. -/
def parseTagged (s : String) : Except String Value := parseTaggedChars s s.data

mutual

/-- Modelled from the spec: `TypeParser.parse_value` (missing
`pyside6_settings.type_parser`), recursing through mappings and sequences in
order, transforming tagged strings and passing every other value through. -/
def parse_value : Value → Except String Value
  | .vstr s => parseTagged s
  | .vdict l => (parseEntries l).map Value.vdict
  | .vlist l => (parseItems l).map Value.vlist
  | v => .ok v

/-- Entrywise `parse_value` over a mapping, preserving keys and order. -/
def parseEntries : List (String × Value) → Except String (List (String × Value))
  | [] => .ok []
  | (k, v) :: rest => do
      let w ← parse_value v
      let ws ← parseEntries rest
      .ok ((k, w) :: ws)

/-- Elementwise `parse_value` over a sequence, preserving order. -/
def parseItems : List Value → Except String (List Value)
  | [] => .ok []
  | v :: rest => do
      let w ← parse_value v
      let ws ← parseItems rest
      .ok (w :: ws)

end

/-- Python's `str.startswith` on the modelled strings. -/
def pyStartsWith (s pre : String) : Bool := pre.data.isPrefixOf s.data

/-- Modelled from the spec: `TypeParser._encode_serialized_value` (missing
`pyside6_settings.type_parser`).  The spec's §4.1 wording checks only for the
handler's own tag, but the repository's test suite
(src/tests/test_type_parser.py, TestEncodeSerializedValue) pins the actual
rule: any text already starting with `@` is returned unchanged — even when the
existing tag's keyword differs; text starting with `keyword ` gets `@`
prepended; everything else gets `@keyword ` prepended. -/
def _encode_serialized_value (text keyword : String) : String :=
  if pyStartsWith text "@" then text
  else if pyStartsWith text (keyword ++ " ") then "@" ++ text
  else "@" ++ keyword ++ " " ++ text

/-- Modelled from the spec: the `_type_mapping`-based lookup used by
`serialize_value` when no keyword is given — the handler whose value type
matches the value's runtime type, together with its serializer's output.
Because Python's `datetime` is a subclass of `date`, a datetime value matches
the `date` entry first: datetimes serialize under the `date` keyword (the
confirmed quirk of spec §9). -/
def serializeDefaultLeaf : Value → Option (String × String)
  | .vpath p => some ("path", p)
  | .vdate y mo da => some ("date", renderDate y mo da)
  | .vdatetime y mo da h mi s off => some ("date", renderDateTime y mo da h mi s off)
  | .vurl sch net pa => some ("url", renderUrl sch net pa)
  | _ => none

/-- Modelled from the spec: the serializer registered for an explicitly given
keyword, applied to a value; `none` when the keyword is unregistered or the
value does not fit the serializer. -/
def serializerFor (kw : String) (v : Value) : Option String :=
  if kw = "path" then
    match v with
    | .vpath p => some p
    | _ => none
  else if kw = "date" then
    match v with
    | .vdate y mo da => some (renderDate y mo da)
    | .vdatetime y mo da h mi s off => some (renderDateTime y mo da h mi s off)
    | _ => none
  else if kw = "datetime" then
    match v with
    | .vdatetime y mo da h mi s off => some (renderDateTime y mo da h mi s off)
    | .vdate y mo da => some (renderDate y mo da)
    | _ => none
  else if kw = "url" then
    match v with
    | .vurl sch net pa => some (renderUrl sch net pa)
    | _ => none
  else none

mutual

/-- Modelled from the spec: `TypeParser.serialize_value` (missing
`pyside6_settings.type_parser`).  Mappings and sequences recurse elementwise;
with an explicit keyword the keyword's serializer is applied and the result
tagged via `_encode_serialized_value`; otherwise a handler is looked up by the
value's runtime type, and values with no matching handler pass through
unchanged. -/
def serialize_value : Value → Option String → Value
  | .vdict l, kw => .vdict (serializeEntries l kw)
  | .vlist l, kw => .vlist (serializeItems l kw)
  | v, some k =>
    match serializerFor k v with
    | some text => .vstr (_encode_serialized_value text k)
    | none => v
  | v, none =>
    match serializeDefaultLeaf v with
    | some (k, text) => .vstr (_encode_serialized_value text k)
    | none => v

/-- Entrywise `serialize_value` over a mapping, preserving keys and order. -/
def serializeEntries : List (String × Value) → Option String → List (String × Value)
  | [], _ => []
  | (k, v) :: rest, kw => (k, serialize_value v kw) :: serializeEntries rest kw

/-- Elementwise `serialize_value` over a sequence, preserving order. -/
def serializeItems : List Value → Option String → List Value
  | [], _ => []
  | v :: rest, kw => serialize_value v kw :: serializeItems rest kw

end

/-- Modelled from the spec: the per-field metadata consulted when saving — the
optional explicit group name and the exclusion flag (missing
`pyside6_settings.fields`). -/
structure FieldMeta where
  group : Option String
  exclude : Bool

/-- Modelled from the spec: the state of a `BaseSettings` model (missing
`pyside6_settings.settings`) — the schema's fields in declaration order with
their current values and metadata, the optional config file path, whether a
storage loader is configured, and one entry per live widget binding (the
field name it is bound to). -/
structure SettingsModel where
  fields : List (String × Value × FieldMeta)
  configFile : Option String
  hasLoader : Bool
  bindings : List String

/-- Effective group of a field: the explicit group, or the default group
`General`. -/
def groupOf (meta : FieldMeta) : String := meta.group.getD "General"

/-- First-occurrence deduplication, matching Python's insertion-ordered
`dict.setdefault` loop; `seen` carries the groups already emitted. -/
def firstDedupAux : List String → List String → List String
  | _, [] => []
  | seen, g :: rest =>
    if g ∈ seen then firstDedupAux seen rest
    else g :: firstDedupAux (g :: seen) rest

/-- First-occurrence deduplication of the group list. -/
def firstDedup (l : List String) : List String := firstDedupAux [] l

/-- Entries saved under group `g`: every non-excluded field of that group, in
declaration order, with its value passed through the codec. -/
def groupEntries (fields : List (String × Value × FieldMeta)) (g : String) :
    List (String × Value) :=
  fields.filterMap (fun f =>
    if f.2.2.exclude = false ∧ groupOf f.2.2 = g then
      some (f.1, serialize_value f.2.1 none)
    else none)

/-- Modelled from the spec: the grouped mapping built by `_save_settings` —
top-level keys are the groups of the non-excluded fields in first-occurrence
order, each holding its fields' serialized values. -/
def buildSavedData (fields : List (String × Value × FieldMeta)) :
    List (String × List (String × Value)) :=
  (firstDedup ((fields.filter (fun f => f.2.2.exclude = false)).map
    (fun f => groupOf f.2.2))).map (fun g => (g, groupEntries fields g))

/-- Modelled from the spec: `BaseSettings._save_settings` (missing
`pyside6_settings.settings`).  Fails with a configuration error when the
config file path or the loader is unset; otherwise produces the grouped
mapping handed to the loader's `save` (the returned mapping is what gets
written — an error writes nothing). -/
def _save_settings (m : SettingsModel) :
    Except String (List (String × List (String × Value))) :=
  match m.configFile with
  | none => .error "Config file not set"
  | some _ =>
    if m.hasLoader then .ok (buildSavedData m.fields)
    else .error "Config loader not set"

/-- Value and metadata of the named field, `none` when the schema has no such
field. -/
def lookupField (fields : List (String × Value × FieldMeta)) (name : String) :
    Option (Value × FieldMeta) :=
  match fields with
  | [] => none
  | (n, v, meta) :: rest => if n = name then some (v, meta) else lookupField rest name

/-- Modelled from the spec: the attribute-write path of `BaseSettings`
(missing `pyside6_settings.settings`).  Returns the updated model, the number
of persisted saves and the number of widget pushes.  The new value is compared
with the current one: if equal there are no side effects; otherwise the stored
value is updated, every binding of the field is pushed to, and one save runs
when both a config file and a loader are configured. -/
def _setattr (m : SettingsModel) (name : String) (newVal : Value) :
    SettingsModel × Nat × Nat :=
  match lookupField m.fields name with
  | none => (m, 0, 0)
  | some (v, _) =>
    if beqValue newVal v then (m, 0, 0)
    else
      ({ m with fields := m.fields.map (fun f =>
          if f.1 = name then (f.1, newVal, f.2.2) else f) },
       if m.configFile.isSome && m.hasLoader then 1 else 0,
       m.bindings.count name)

theorem except_bind_ok {α β ε : Type} {ma : Except ε α} {f : α → Except ε β} {b : β} :
    (ma >>= f) = .ok b ↔ ∃ a, ma = .ok a ∧ f a = .ok b := by
  cases ma <;> simp [Bind.bind, Except.bind]

theorem parseTagged_keyword {kw : String} {f : String → Except String Value}
    (hf : lookupParser kw = some f) (hsp : ' ' ∉ kw.data) (P : String) :
    parseTagged ("@" ++ kw ++ " " ++ P) = f P := by
  have hd : ("@" ++ kw ++ " " ++ P).data = '@' :: (kw.data ++ ' ' :: P.data) := by
    simp [String.data_append]
  rw [parseTagged, hd]
  simp only [parseTaggedChars]
  rw [splitFirstChar_append P.data hsp]
  simp only [string_mk_data, hf]

theorem pyStartsWith_head_ne {rest : List Char} {c d : Char} {pre : String}
    (hpre : pre.data = d :: pre.data.tail) (h : c ≠ d) :
    pyStartsWith (String.mk (c :: rest)) pre = false := by
  rw [pyStartsWith, hpre]
  simp only [List.isPrefixOf]
  have hdc : (d == c) = false := by
    simp only [beq_eq_false_iff_ne, ne_eq]
    exact fun e => h e.symm
  rw [hdc, Bool.false_and]

theorem pyStartsWith_cons_at {s : String} {r : List Char} (h : s.data = '@' :: r) :
    pyStartsWith s "@" = true := by
  rw [pyStartsWith, h]
  simp [List.isPrefixOf]

theorem encode_fresh {text kw : String} (h1 : pyStartsWith text "@" = false)
    (h2 : pyStartsWith text (kw ++ " ") = false) :
    _encode_serialized_value text kw = "@" ++ kw ++ " " ++ text := by
  rw [_encode_serialized_value, h1, h2]
  simp

theorem serialize_vdate_eq (y mo da : Nat) :
    serialize_value (.vdate y mo da) none =
      .vstr ("@" ++ "date" ++ " " ++ renderDate y mo da) := by
  rw [show serialize_value (.vdate y mo da) none =
      .vstr (_encode_serialized_value (renderDate y mo da) "date") from rfl]
  congr 1
  apply encode_fresh
  · rw [renderDate, renderDateChars]
    exact pyStartsWith_head_ne rfl digitChar_ne_at
  · rw [renderDate, renderDateChars]
    exact pyStartsWith_head_ne rfl digitChar_ne_d

theorem renderDateTimeChars_cons (y mo da h mi s : Nat) (off : Option (Bool × Nat × Nat)) :
    ∃ r, renderDateTimeChars y mo da h mi s off = digitChar (y / 1000 % 10) :: r :=
  ⟨[digitChar (y / 100 % 10), digitChar (y / 10 % 10), digitChar (y % 10), '-',
    digitChar (mo / 10 % 10), digitChar (mo % 10), '-', digitChar (da / 10 % 10),
    digitChar (da % 10)] ++ 'T' :: renderTimeChars h mi s off, by
      simp [renderDateTimeChars, renderDateChars]⟩

theorem serialize_vdatetime_eq (y mo da h mi s : Nat) (off : Option (Bool × Nat × Nat)) :
    serialize_value (.vdatetime y mo da h mi s off) none =
      .vstr ("@" ++ "date" ++ " " ++ renderDateTime y mo da h mi s off) := by
  rw [show serialize_value (.vdatetime y mo da h mi s off) none =
      .vstr (_encode_serialized_value (renderDateTime y mo da h mi s off) "date") from rfl]
  congr 1
  obtain ⟨r, hr⟩ := renderDateTimeChars_cons y mo da h mi s off
  apply encode_fresh
  · rw [renderDateTime, hr]
    exact pyStartsWith_head_ne rfl digitChar_ne_at
  · rw [renderDateTime, hr]
    exact pyStartsWith_head_ne rfl digitChar_ne_d

theorem serialize_vdatetime_kw_eq (y mo da h mi s : Nat) (off : Option (Bool × Nat × Nat)) :
    serialize_value (.vdatetime y mo da h mi s off) (some "datetime") =
      .vstr ("@" ++ "datetime" ++ " " ++ renderDateTime y mo da h mi s off) := by
  rw [show serialize_value (.vdatetime y mo da h mi s off) (some "datetime") =
      .vstr (_encode_serialized_value (renderDateTime y mo da h mi s off) "datetime") from rfl]
  congr 1
  obtain ⟨r, hr⟩ := renderDateTimeChars_cons y mo da h mi s off
  apply encode_fresh
  · rw [renderDateTime, hr]
    exact pyStartsWith_head_ne rfl digitChar_ne_at
  · rw [renderDateTime, hr]
    exact pyStartsWith_head_ne rfl digitChar_ne_d

theorem isSchemeChar_ne_space {c : Char} (h : isSchemeChar c = true) : c ≠ ' ' := by
  intro e
  subst e
  simp [isSchemeChar] at h

theorem isSchemeChar_ne_at {c : Char} (h : isSchemeChar c = true) : c ≠ '@' := by
  intro e
  subst e
  simp [isSchemeChar] at h

theorem url_render_no_url_sp {sch net pa : List Char} (hne : sch ≠ [])
    (hall : sch.all isSchemeChar = true) :
    pyStartsWith (String.mk (renderUrlChars sch net pa)) ("url" ++ " ") = false := by
  have hrc : ('r' == ':') = false := by decide
  have hlc : ('l' == ':') = false := by decide
  have hsc : (' ' == ':') = false := by decide
  rcases sch with _ | ⟨c1, sch1⟩
  · exact absurd rfl hne
  rcases sch1 with _ | ⟨c2, sch2⟩
  · simp [pyStartsWith, renderUrlChars, List.isPrefixOf, hrc]
  rcases sch2 with _ | ⟨c3, sch3⟩
  · simp [pyStartsWith, renderUrlChars, List.isPrefixOf, hlc]
  rcases sch3 with _ | ⟨c4, sch4⟩
  · simp [pyStartsWith, renderUrlChars, List.isPrefixOf, hsc]
  · have hc4 : isSchemeChar c4 = true := by
      simp only [List.all_cons, Bool.and_eq_true] at hall
      exact hall.2.2.2.1
    have hc4s : (' ' == c4) = false := by
      simp only [beq_eq_false_iff_ne, ne_eq]
      exact fun e => isSchemeChar_ne_space hc4 e.symm
    simp [pyStartsWith, renderUrlChars, List.isPrefixOf, hc4s]

theorem serialize_vurl_eq {sch net pa : List Char} (hne : sch ≠ [])
    (hall : sch.all isSchemeChar = true) :
    serialize_value (.vurl (String.mk sch) (String.mk net) (String.mk pa)) none =
      .vstr ("@" ++ "url" ++ " " ++ String.mk (renderUrlChars sch net pa)) := by
  rw [show serialize_value (.vurl (String.mk sch) (String.mk net) (String.mk pa)) none =
      .vstr (_encode_serialized_value
        (renderUrl (String.mk sch) (String.mk net) (String.mk pa)) "url") from rfl]
  have hru : renderUrl (String.mk sch) (String.mk net) (String.mk pa) =
      String.mk (renderUrlChars sch net pa) := rfl
  congr 1
  rw [hru]
  apply encode_fresh
  · rcases sch with _ | ⟨c1, sch1⟩
    · exact absurd rfl hne
    have hc1 : isSchemeChar c1 = true := by
      simp only [List.all_cons, Bool.and_eq_true] at hall
      exact hall.1
    rw [show renderUrlChars (c1 :: sch1) net pa =
        c1 :: (sch1 ++ ':' :: '/' :: '/' :: (net ++ pa)) from rfl]
    exact pyStartsWith_head_ne rfl (isSchemeChar_ne_at hc1)
  · exact url_render_no_url_sp hne hall

theorem parse_date_ok {P : String} {v : Value} (h : parse_date P = .ok v) :
    ∃ y mo da, parseDateChars P.data = some (y, mo, da) ∧ v = .vdate y mo da := by
  rw [parse_date] at h
  split at h
  · rename_i y mo da hsome
    simp only [Except.ok.injEq] at h
    exact ⟨y, mo, da, hsome, h.symm⟩
  · simp at h

theorem parse_datetime_ok {P : String} {v : Value} (h : parse_datetime P = .ok v) :
    ∃ y mo da hh mi s off, parseDateTimeChars P.data = some (y, mo, da, hh, mi, s, off) ∧
      v = .vdatetime y mo da hh mi s off := by
  rw [parse_datetime] at h
  split at h
  · rename_i y mo da hh mi s off hsome
    simp only [Except.ok.injEq] at h
    exact ⟨y, mo, da, hh, mi, s, off, hsome, h.symm⟩
  · simp at h

theorem parse_url_ok {P : String} {v : Value} (h : parse_url P = .ok v) :
    ∃ sch net pa, parseUrlChars P.data = some (sch, net, pa) ∧
      v = .vurl (String.mk sch) (String.mk net) (String.mk pa) := by
  rw [parse_url] at h
  split at h
  · rename_i sch net pa hsome
    simp only [Except.ok.injEq] at h
    exact ⟨sch, net, pa, hsome, h.symm⟩
  · simp at h

theorem renderDate_of_parse {P : String} {y mo da : Nat}
    (h : parseDateChars P.data = some (y, mo, da)) : renderDate y mo da = P := by
  rw [renderDate, parseDateChars_render h, string_mk_data]

theorem renderDateTime_of_parse {P : String} {y mo da hh mi s : Nat}
    {off : Option (Bool × Nat × Nat)}
    (h : parseDateTimeChars P.data = some (y, mo, da, hh, mi, s, off)) :
    renderDateTime y mo da hh mi s off = P := by
  rw [renderDateTime, parseDateTimeChars_render h, string_mk_data]

theorem renderUrlChars_of_parse {P : String} {sch net pa : List Char}
    (h : parseUrlChars P.data = some (sch, net, pa)) :
    String.mk (renderUrlChars sch net pa) = P := by
  rw [(parseUrlChars_eq h).1, string_mk_data]

theorem tag_concat_date (X : String) : "@" ++ "date" ++ " " ++ X = "@date " ++ X := by
  apply string_data_inj
  simp [String.data_append]

theorem tag_concat_datetime (X : String) :
    "@" ++ "datetime" ++ " " ++ X = "@datetime " ++ X := by
  apply string_data_inj
  simp [String.data_append]

theorem tag_concat_url (X : String) : "@" ++ "url" ++ " " ++ X = "@url " ++ X := by
  apply string_data_inj
  simp [String.data_append]

theorem tag_concat_path (X : String) : "@" ++ "path" ++ " " ++ X = "@path " ++ X := by
  apply string_data_inj
  simp [String.data_append]

/-- C1 counterexample: for the valid path payload `"@x"` (any text is a valid
path), the round trip fails — `serialize_value (parse_value "@path @x")` yields
`"@x"`, not the original tagged string, and re-parsing it does not reproduce
the parsed value, because `_encode_serialized_value` leaves `@`-initial text
untouched. -/
theorem roundtrip_counterexample :
    parse_value (.vstr "@path @x") = .ok (.vpath "@x") ∧
    serialize_value (.vpath "@x") none = .vstr "@x" ∧
    Value.vstr "@x" ≠ Value.vstr "@path @x" ∧
    parse_value (serialize_value (.vpath "@x") none) ≠ .ok (.vpath "@x") := by
  refine ⟨rfl, rfl, ?_, ?_⟩
  · intro h
    simp only [Value.vstr.injEq] at h
    exact absurd h (by decide)
  · rw [show serialize_value (.vpath "@x") none = .vstr "@x" from rfl]
    rw [show parse_value (.vstr "@x") = .ok (.vstr "@x") from rfl]
    intro h
    simp only [Except.ok.injEq] at h
    exact Value.noConfusion h

/-- C1 (amended): for each built-in keyword, when the payload parses
successfully — and, for `path`, the payload does not itself begin with `@` or
with `path ` — serializing the parsed value reproduces the original tagged
string exactly, and re-parsing it yields a value structurally equal to the
first parse; `datetime` uses the explicit keyword `"datetime"`. -/
theorem parse_serialize_roundtrip :
    (∀ P v, pyStartsWith P "@" = false → pyStartsWith P "path " = false →
      parse_value (.vstr ("@path " ++ P)) = .ok v →
      serialize_value v none = .vstr ("@path " ++ P) ∧
      parse_value (serialize_value v none) = .ok v) ∧
    (∀ P v, parse_value (.vstr ("@date " ++ P)) = .ok v →
      serialize_value v none = .vstr ("@date " ++ P) ∧
      parse_value (serialize_value v none) = .ok v) ∧
    (∀ P v, parse_value (.vstr ("@url " ++ P)) = .ok v →
      serialize_value v none = .vstr ("@url " ++ P) ∧
      parse_value (serialize_value v none) = .ok v) ∧
    (∀ P v, parse_value (.vstr ("@datetime " ++ P)) = .ok v →
      serialize_value v (some "datetime") = .vstr ("@datetime " ++ P) ∧
      parse_value (serialize_value v (some "datetime")) = .ok v) := by
  refine ⟨?_, ?_, ?_, ?_⟩
  · intro P v h1 h2 hp
    have hp2 : parse_path P = .ok v := by
      rw [← tag_concat_path P] at hp
      rw [show parse_value (.vstr ("@" ++ "path" ++ " " ++ P)) =
          parseTagged ("@" ++ "path" ++ " " ++ P) from rfl] at hp
      rwa [parseTagged_keyword (by rfl) (by decide) P] at hp
    rw [parse_path] at hp2
    simp only [Except.ok.injEq] at hp2
    subst hp2
    have hser : serialize_value (.vpath P) none = .vstr ("@path " ++ P) := by
      rw [show serialize_value (.vpath P) none =
          .vstr (_encode_serialized_value P "path") from rfl]
      rw [encode_fresh h1 (by rwa [show ("path" ++ " ") = "path " from rfl])]
      rw [tag_concat_path]
    exact ⟨hser, by rw [hser]; exact hp⟩
  · intro P v hp
    have hp2 : parse_date P = .ok v := by
      rw [← tag_concat_date P] at hp
      rw [show parse_value (.vstr ("@" ++ "date" ++ " " ++ P)) =
          parseTagged ("@" ++ "date" ++ " " ++ P) from rfl] at hp
      rwa [parseTagged_keyword (by rfl) (by decide) P] at hp
    obtain ⟨y, mo, da, hsome, hv⟩ := parse_date_ok hp2
    subst hv
    have hser : serialize_value (.vdate y mo da) none = .vstr ("@date " ++ P) := by
      rw [serialize_vdate_eq, renderDate_of_parse hsome, tag_concat_date]
    exact ⟨hser, by rw [hser]; exact hp⟩
  · intro P v hp
    have hp2 : parse_url P = .ok v := by
      rw [← tag_concat_url P] at hp
      rw [show parse_value (.vstr ("@" ++ "url" ++ " " ++ P)) =
          parseTagged ("@" ++ "url" ++ " " ++ P) from rfl] at hp
      rwa [parseTagged_keyword (by rfl) (by decide) P] at hp
    obtain ⟨sch, net, pa, hsome, hv⟩ := parse_url_ok hp2
    subst hv
    obtain ⟨-, hne, hall⟩ := parseUrlChars_eq hsome
    have hser : serialize_value (.vurl (String.mk sch) (String.mk net) (String.mk pa))
        none = .vstr ("@url " ++ P) := by
      rw [serialize_vurl_eq hne hall, renderUrlChars_of_parse hsome, tag_concat_url]
    exact ⟨hser, by rw [hser]; exact hp⟩
  · intro P v hp
    have hp2 : parse_datetime P = .ok v := by
      rw [← tag_concat_datetime P] at hp
      rw [show parse_value (.vstr ("@" ++ "datetime" ++ " " ++ P)) =
          parseTagged ("@" ++ "datetime" ++ " " ++ P) from rfl] at hp
      rwa [parseTagged_keyword (by rfl) (by decide) P] at hp
    obtain ⟨y, mo, da, hh, mi, s, off, hsome, hv⟩ := parse_datetime_ok hp2
    subst hv
    have hser : serialize_value (.vdatetime y mo da hh mi s off) (some "datetime") =
        .vstr ("@datetime " ++ P) := by
      rw [serialize_vdatetime_kw_eq, renderDateTime_of_parse hsome, tag_concat_datetime]
    exact ⟨hser, by rw [hser]; exact hp⟩

/-- C1 witness: the amended round trip at the test suite's concrete inputs. -/
theorem parse_serialize_roundtrip_witness :
    (serialize_value (.vpath "/home/user/file.txt") none =
        .vstr ("@path " ++ "/home/user/file.txt") ∧
      parse_value (serialize_value (.vpath "/home/user/file.txt") none) =
        .ok (.vpath "/home/user/file.txt")) ∧
    (serialize_value (.vdate 2024 1 15) none = .vstr ("@date " ++ "2024-01-15") ∧
      parse_value (serialize_value (.vdate 2024 1 15) none) = .ok (.vdate 2024 1 15)) ∧
    (serialize_value (.vurl "https" "example.com" "/path") none =
        .vstr ("@url " ++ "https://example.com/path") ∧
      parse_value (serialize_value (.vurl "https" "example.com" "/path") none) =
        .ok (.vurl "https" "example.com" "/path")) ∧
    (serialize_value (.vdatetime 2024 1 15 10 30 0 none) (some "datetime") =
        .vstr ("@datetime " ++ "2024-01-15T10:30:00") ∧
      parse_value (serialize_value (.vdatetime 2024 1 15 10 30 0 none) (some "datetime")) =
        .ok (.vdatetime 2024 1 15 10 30 0 none)) :=
  ⟨parse_serialize_roundtrip.1 "/home/user/file.txt" (.vpath "/home/user/file.txt")
      (by rfl) (by rfl) (by rfl),
   parse_serialize_roundtrip.2.1 "2024-01-15" (.vdate 2024 1 15) (by rfl),
   parse_serialize_roundtrip.2.2.1 "https://example.com/path"
      (.vurl "https" "example.com" "/path") (by rfl),
   parse_serialize_roundtrip.2.2.2 "2024-01-15T10:30:00"
      (.vdatetime 2024 1 15 10 30 0 none) (by rfl)⟩

/-- C2 counterexample: for text already tagged with a different keyword, the
encoder returns it unchanged instead of prepending `"@date "` as the claim's
otherwise-branch requires. -/
theorem encode_counterexample :
    _encode_serialized_value "@other 2024-01-15" "date" = "@other 2024-01-15" ∧
    "@other 2024-01-15" ≠ "@date " ++ "@other 2024-01-15" := by
  refine ⟨rfl, ?_⟩
  intro h
  exact absurd (congrArg String.data h) (by decide)

/-- C2 (amended): `_encode_serialized_value` returns the text unchanged
whenever it already starts with `@` — including a tag with a different
keyword or exactly `"@keyword"`; it prepends `@` when the text starts with
`"keyword "`; otherwise it prepends `"@keyword "`. -/
theorem encode_rule (t k : String) :
    (pyStartsWith t "@" = true → _encode_serialized_value t k = t) ∧
    (pyStartsWith t "@" = false → pyStartsWith t (k ++ " ") = true →
      _encode_serialized_value t k = "@" ++ t) ∧
    (pyStartsWith t "@" = false → pyStartsWith t (k ++ " ") = false →
      _encode_serialized_value t k = "@" ++ k ++ " " ++ t) := by
  refine ⟨?_, ?_, ?_⟩
  · intro h1
    rw [_encode_serialized_value, h1]
    simp
  · intro h1 h2
    rw [_encode_serialized_value, h1, h2]
    simp
  · intro h1 h2
    exact encode_fresh h1 h2

/-- C2 amended-claim witness: the three branches at the test suite's concrete
inputs. -/
theorem encode_rule_witness :
    _encode_serialized_value "@other 2024-01-15" "date" = "@other 2024-01-15" ∧
    _encode_serialized_value "date 2024-01-15" "date" = "@" ++ "date 2024-01-15" ∧
    _encode_serialized_value "2024-01-15" "date" = "@" ++ "date" ++ " " ++ "2024-01-15" :=
  ⟨(encode_rule "@other 2024-01-15" "date").1 (by rfl),
   (encode_rule "date 2024-01-15" "date").2.1 (by rfl) (by rfl),
   (encode_rule "2024-01-15" "date").2.2 (by rfl) (by rfl)⟩

/-- C9: `_encode_serialized_value` is idempotent — its output always starts
with `@`, so a second application returns it unchanged; in particular the
already-tagged `"@date 2024-01-15"` is left as is. -/
theorem encode_idempotent :
    (∀ t k, _encode_serialized_value (_encode_serialized_value t k) k =
      _encode_serialized_value t k) ∧
    _encode_serialized_value "@date 2024-01-15" "date" = "@date 2024-01-15" := by
  constructor
  · intro t k
    have hstarts : pyStartsWith (_encode_serialized_value t k) "@" = true := by
      rw [_encode_serialized_value]
      split
      · assumption
      · split
        · exact pyStartsWith_cons_at (r := t.data) rfl
        · exact pyStartsWith_cons_at (r := (k ++ " " ++ t).data) rfl
    rw [_encode_serialized_value, hstarts]
    simp
  · rfl

/-- C10: every text that already begins with `@` is returned unchanged by
`_encode_serialized_value`, even when the existing tag's keyword differs from
the keyword argument. -/
theorem encode_at_unchanged (t k : String) (h : pyStartsWith t "@" = true) :
    _encode_serialized_value t k = t := by
  rw [_encode_serialized_value, h]
  simp

/-- C10 witness: the differing-keyword test input is returned unchanged. -/
theorem encode_at_unchanged_witness :
    pyStartsWith "@other 2024-01-15" "@" = true ∧
    _encode_serialized_value "@other 2024-01-15" "date" = "@other 2024-01-15" :=
  ⟨by rfl, encode_at_unchanged "@other 2024-01-15" "date" (by rfl)⟩

/-- C6: `parse_value` fails with a value-format error on a malformed payload
for a registered parser (`"@date not-a-date"`), and returns the input string
unchanged for an unregistered keyword (`"@unknown x"`), for a bare `"@"`, and
for `"@date"` with no following space. -/
theorem parse_error_and_passthrough :
    parse_value (.vstr "@date not-a-date") =
      .error ("Invalid isoformat string: " ++ "not-a-date") ∧
    parse_value (.vstr "@unknown x") = .ok (.vstr "@unknown x") ∧
    parse_value (.vstr "@") = .ok (.vstr "@") ∧
    parse_value (.vstr "@date") = .ok (.vstr "@date") :=
  ⟨rfl, rfl, rfl, rfl⟩

/-- C8: with no explicit keyword, a datetime value serializes under the
`"@date "` tag (not `"@datetime "`) followed by its ISO 8601 rendering — the
type lookup matches the `date` handler first because Python's `datetime` is a
subclass of `date`. -/
theorem serialize_datetime_date_tag (y mo da h mi s : Nat)
    (off : Option (Bool × Nat × Nat)) :
    serialize_value (.vdatetime y mo da h mi s off) none =
      .vstr ("@date " ++ renderDateTime y mo da h mi s off) := by
  rw [serialize_vdatetime_eq, tag_concat_date]

theorem parseEntries_ok {l : List (String × Value)} :
    ∀ {l'}, parseEntries l = .ok l' →
      List.Forall₂ (fun p q => p.1 = q.1 ∧ parse_value p.2 = .ok q.2) l l' := by
  induction l with
  | nil =>
    intro l' h
    rw [parseEntries] at h
    simp only [Except.ok.injEq] at h
    subst h
    exact .nil
  | cons p rest ih =>
    intro l' h
    obtain ⟨k, v⟩ := p
    rw [parseEntries] at h
    obtain ⟨w, hw, hrest⟩ := except_bind_ok.mp h
    obtain ⟨ws, hws, heq⟩ := except_bind_ok.mp hrest
    simp only [Except.ok.injEq] at heq
    subst heq
    exact List.Forall₂.cons ⟨rfl, hw⟩ (ih hws)

theorem parseItems_ok {l : List Value} :
    ∀ {l'}, parseItems l = .ok l' →
      List.Forall₂ (fun a b => parse_value a = .ok b) l l' := by
  induction l with
  | nil =>
    intro l' h
    rw [parseItems] at h
    simp only [Except.ok.injEq] at h
    subst h
    exact .nil
  | cons v rest ih =>
    intro l' h
    rw [parseItems] at h
    obtain ⟨w, hw, hrest⟩ := except_bind_ok.mp h
    obtain ⟨ws, hws, heq⟩ := except_bind_ok.mp hrest
    simp only [Except.ok.injEq] at heq
    subst heq
    exact List.Forall₂.cons hw (ih hws)

/-- C7: on mappings and sequences, `parse_value` preserves shape, key order
and element order — the result pairs up entrywise with the input, each value
being the parse of the corresponding input value — while scalar leaves
(integers, booleans, none) and untagged strings pass through unchanged. -/
theorem parse_preserves_structure :
    (∀ l w, parse_value (.vdict l) = .ok w →
      ∃ l', w = .vdict l' ∧
        List.Forall₂ (fun p q => p.1 = q.1 ∧ parse_value p.2 = .ok q.2) l l') ∧
    (∀ l w, parse_value (.vlist l) = .ok w →
      ∃ l', w = .vlist l' ∧ List.Forall₂ (fun a b => parse_value a = .ok b) l l') ∧
    (∀ n : Int, parse_value (.vint n) = .ok (.vint n)) ∧
    (∀ b, parse_value (.vbool b) = .ok (.vbool b)) ∧
    parse_value .vnone = .ok .vnone ∧
    (∀ s, pyStartsWith s "@" = false → parse_value (.vstr s) = .ok (.vstr s)) := by
  refine ⟨?_, ?_, fun n => rfl, fun b => rfl, rfl, ?_⟩
  · intro l w h
    rw [show parse_value (.vdict l) = (parseEntries l).map Value.vdict from rfl] at h
    cases hE : parseEntries l with
    | error e =>
      rw [hE] at h
      simp [Except.map] at h
    | ok l' =>
      rw [hE] at h
      simp only [Except.map, Except.ok.injEq] at h
      exact ⟨l', h.symm, parseEntries_ok hE⟩
  · intro l w h
    rw [show parse_value (.vlist l) = (parseItems l).map Value.vlist from rfl] at h
    cases hE : parseItems l with
    | error e =>
      rw [hE] at h
      simp [Except.map] at h
    | ok l' =>
      rw [hE] at h
      simp only [Except.map, Except.ok.injEq] at h
      exact ⟨l', h.symm, parseItems_ok hE⟩
  · intro s hs
    rw [show parse_value (.vstr s) = parseTaggedChars s s.data from rfl]
    unfold parseTaggedChars
    split
    · rename_i rest heq
      rw [pyStartsWith_cons_at heq] at hs
      exact absurd hs (by simp)
    · rfl

/-- C7 witness: structure preservation at the test suite's mixed inputs. -/
theorem parse_preserves_structure_witness :
    (∃ l', Value.vdict [("name", Value.vstr "test"), ("created", Value.vdate 2024 1 15)] =
        .vdict l' ∧
      List.Forall₂ (fun p q => p.1 = q.1 ∧ parse_value p.2 = .ok q.2)
        [("name", Value.vstr "test"), ("created", Value.vstr "@date 2024-01-15")] l') ∧
    (∃ l', Value.vlist [Value.vstr "plain", Value.vdate 2024 1 15, Value.vint 42] =
        .vlist l' ∧
      List.Forall₂ (fun a b => parse_value a = .ok b)
        [Value.vstr "plain", Value.vstr "@date 2024-01-15", Value.vint 42] l') ∧
    parse_value (.vint 42) = .ok (.vint 42) ∧
    parse_value (.vbool true) = .ok (.vbool true) ∧
    parse_value .vnone = .ok .vnone ∧
    parse_value (.vstr "plain") = .ok (.vstr "plain") :=
  ⟨parse_preserves_structure.1
      [("name", Value.vstr "test"), ("created", Value.vstr "@date 2024-01-15")]
      (.vdict [("name", Value.vstr "test"), ("created", Value.vdate 2024 1 15)]) (by rfl),
   parse_preserves_structure.2.1
      [Value.vstr "plain", Value.vstr "@date 2024-01-15", Value.vint 42]
      (.vlist [Value.vstr "plain", Value.vdate 2024 1 15, Value.vint 42]) (by rfl),
   parse_preserves_structure.2.2.1 42,
   parse_preserves_structure.2.2.2.1 true,
   parse_preserves_structure.2.2.2.2.1,
   parse_preserves_structure.2.2.2.2.2 "plain" (by rfl)⟩

theorem lookupField_map_update {fields : List (String × Value × FieldMeta)}
    {name : String} {newVal cur : Value} {meta : FieldMeta}
    (h : lookupField fields name = some (cur, meta)) :
    lookupField (fields.map (fun f => if f.1 = name then (f.1, newVal, f.2.2) else f))
      name = some (newVal, meta) := by
  induction fields with
  | nil => simp [lookupField] at h
  | cons f rest ih =>
    obtain ⟨n, v, mt⟩ := f
    rw [lookupField] at h
    by_cases hn : n = name
    · rw [if_pos hn] at h
      simp only [Option.some.injEq, Prod.mk.injEq] at h
      obtain ⟨hv, hm⟩ := h
      subst hv hm
      simp only [List.map_cons, if_pos hn]
      rw [lookupField, if_pos hn]
    · rw [if_neg hn] at h
      simp only [List.map_cons]
      rw [show (if (n, v, mt).1 = name then ((n, v, mt).1, newVal, (n, v, mt).2.2)
          else (n, v, mt)) = (n, v, mt) from by simp [hn]]
      rw [lookupField, if_neg hn]
      exact ih h

/-- C3: writing a field attribute with a value equal to the current one has no
effect — no save, no widget push, unchanged model; writing a different value
updates the stored value and performs exactly one save when a config file and
loader are configured (zero otherwise). -/
theorem setattr_effects (m : SettingsModel) (name : String) (newVal cur : Value)
    (meta : FieldMeta) (hl : lookupField m.fields name = some (cur, meta)) :
    (newVal = cur → _setattr m name newVal = (m, 0, 0)) ∧
    (newVal ≠ cur →
      lookupField (_setattr m name newVal).1.fields name = some (newVal, meta) ∧
      (_setattr m name newVal).2.1 =
        (if m.configFile.isSome && m.hasLoader then 1 else 0)) := by
  constructor
  · intro he
    subst he
    simp [_setattr, hl, beqValue_refl]
  · intro hne
    have hb : beqValue newVal cur = false := by
      cases hbe : beqValue newVal cur
      · rfl
      · exact absurd (beqValue_eq _ _ hbe) hne
    simp only [_setattr, hl, hb, Bool.false_eq_true, if_false]
    exact ⟨lookupField_map_update hl, trivial⟩

/-- Concrete settings model used to instantiate the settings-model theorems:
two saved fields (one grouped, one ungrouped), one excluded field, a config
file, a loader and a single binding. -/
def exampleModel : SettingsModel :=
  { fields := [("username", .vstr "user", ⟨some "Account", false⟩),
               ("name", .vstr "test", ⟨none, false⟩),
               ("hidden", .vstr "secret", ⟨none, true⟩)],
    configFile := some "test.json",
    hasLoader := true,
    bindings := ["username"] }

/-- C3 witness: on the concrete model, writing a changed value updates the
field and performs exactly one save, and writing the unchanged value is a
no-op. -/
theorem setattr_effects_witness :
    _setattr exampleModel "name" (.vstr "test") = (exampleModel, 0, 0) ∧
    lookupField (_setattr exampleModel "name" (.vstr "updated")).1.fields "name" =
      some (.vstr "updated", ⟨none, false⟩) ∧
    (_setattr exampleModel "name" (.vstr "updated")).2.1 =
      (if exampleModel.configFile.isSome && exampleModel.hasLoader then 1 else 0) :=
  ⟨(setattr_effects exampleModel "name" (.vstr "test") (.vstr "test") ⟨none, false⟩
      (by rfl)).1 rfl,
   (setattr_effects exampleModel "name" (.vstr "updated") (.vstr "test") ⟨none, false⟩
      (by rfl)).2
      (by simp only [ne_eq, Value.vstr.injEq]; decide)⟩

theorem mem_firstDedupAux {g : String} :
    ∀ {l seen : List String}, g ∈ l → g ∉ seen → g ∈ firstDedupAux seen l := by
  intro l
  induction l with
  | nil => intro seen h _; simp at h
  | cons a rest ih =>
    intro seen hg hns
    rw [firstDedupAux]
    by_cases ha : a ∈ seen
    · rw [if_pos ha]
      rcases List.mem_cons.mp hg with he | hr
      · exact absurd (he ▸ ha) hns
      · exact ih hr hns
    · rw [if_neg ha]
      by_cases hga : g = a
      · subst hga
        exact List.mem_cons_self _ _
      · rcases List.mem_cons.mp hg with he | hr
        · exact absurd he hga
        · refine List.mem_cons_of_mem _ (ih hr ?_)
          simp only [List.mem_cons, not_or]
          exact ⟨hga, hns⟩

theorem nodup_key_unique {l : List (String × Value × FieldMeta)}
    (h : (l.map (fun f => f.1)).Nodup) {n : String} {a b : Value × FieldMeta}
    (ha : (n, a) ∈ l) (hb : (n, b) ∈ l) : a = b := by
  induction l with
  | nil => simp at ha
  | cons f rest ih =>
    simp only [List.map_cons, List.nodup_cons] at h
    rcases List.mem_cons.mp ha with he | hr
    · rcases List.mem_cons.mp hb with he2 | hr2
      · rw [← he] at he2
        simp only [Prod.mk.injEq] at he2
        exact he2.2.symm
      · exfalso
        apply h.1
        have hmem2 : n ∈ rest.map (fun f => f.1) := List.mem_map_of_mem _ hr2
        rw [← he]
        exact hmem2
    · rcases List.mem_cons.mp hb with he2 | hr2
      · exfalso
        apply h.1
        have hmem2 : n ∈ rest.map (fun f => f.1) := List.mem_map_of_mem _ hr
        rw [← he2]
        exact hmem2
      · exact ih h.2 hr hr2

/-- C4: with a config file and loader configured, `_save_settings` produces a
mapping keyed by group name: every non-excluded field appears under its
effective group — the explicit group, or the default `"General"` — with its
value passed through `serialize_value`, and excluded fields appear nowhere in
the saved mapping. -/
theorem save_grouped (m : SettingsModel) (p : String)
    (hf : m.configFile = some p) (hl : m.hasLoader = true)
    (hnd : (m.fields.map (fun f => f.1)).Nodup) :
    ∃ d, _save_settings m = .ok d ∧
      (∀ n v meta, (n, v, meta) ∈ m.fields → meta.exclude = false →
        ∃ es, (meta.group.getD "General", es) ∈ d ∧ (n, serialize_value v none) ∈ es) ∧
      (∀ n v meta, (n, v, meta) ∈ m.fields → meta.exclude = true →
        ∀ g es, (g, es) ∈ d → ∀ w, (n, w) ∉ es) := by
  refine ⟨buildSavedData m.fields, by simp [_save_settings, hf, hl], ?_, ?_⟩
  · intro n v meta hmem hexc
    have h1 : (n, v, meta) ∈ m.fields.filter (fun f => f.2.2.exclude = false) :=
      List.mem_filter.mpr ⟨hmem, by simp [hexc]⟩
    have h3 : groupOf meta ∈ firstDedup ((m.fields.filter
        (fun f => f.2.2.exclude = false)).map (fun f => groupOf f.2.2)) :=
      mem_firstDedupAux (List.mem_map_of_mem _ h1) (by simp)
    refine ⟨groupEntries m.fields (groupOf meta), ?_, ?_⟩
    · exact List.mem_map_of_mem (fun g => (g, groupEntries m.fields g)) h3
    · apply List.mem_filterMap.mpr
      exact ⟨(n, v, meta), hmem, by simp [groupEntries, hexc]⟩
  · intro n v meta hmem hexc g es hges w hin
    obtain ⟨g0, hg0, heq⟩ := List.mem_map.mp hges
    simp only [Prod.mk.injEq] at heq
    obtain ⟨hgg, hes⟩ := heq
    subst hgg hes
    obtain ⟨f0, hf0mem, hf0cond⟩ := List.mem_filterMap.mp hin
    split at hf0cond
    · rename_i hcond
      simp only [Option.some.injEq, Prod.mk.injEq] at hf0cond
      obtain ⟨hn0, -⟩ := hf0cond
      have hsame : f0.2 = (v, meta) := by
        apply nodup_key_unique hnd _ hmem
        rw [show (n, f0.2) = f0 from by rw [← hn0]]
        exact hf0mem
      rw [hsame] at hcond
      rw [hcond.1] at hexc
      exact Bool.noConfusion hexc
    · exact Option.noConfusion hf0cond

/-- C4 witness: saving the concrete model produces `Account` and `General`
group entries holding the grouped and ungrouped fields, and the excluded field
appears in no group. -/
theorem save_grouped_witness :
    ∃ d, _save_settings exampleModel = .ok d ∧
      (∀ n v meta, (n, v, meta) ∈ exampleModel.fields → meta.exclude = false →
        ∃ es, (meta.group.getD "General", es) ∈ d ∧ (n, serialize_value v none) ∈ es) ∧
      (∀ n v meta, (n, v, meta) ∈ exampleModel.fields → meta.exclude = true →
        ∀ g es, (g, es) ∈ d → ∀ w, (n, w) ∉ es) :=
  save_grouped exampleModel "test.json" (by rfl) (by rfl) (by decide)

/-- C5: `_save_settings` raises a configuration error — writing nothing —
whenever the config file path is unset, or the path is set but the loader is
unset; the missing configuration is never silently ignored. -/
theorem save_requires_config (m : SettingsModel) :
    (m.configFile = none → _save_settings m = .error "Config file not set") ∧
    (m.configFile ≠ none → m.hasLoader = false →
      _save_settings m = .error "Config loader not set") := by
  constructor
  · intro h
    simp [_save_settings, h]
  · intro h1 h2
    cases hc : m.configFile with
    | none => exact absurd hc h1
    | some p => simp [_save_settings, hc, h2]

/-- C5 witness: the two configuration errors at concrete models. -/
theorem save_requires_config_witness :
    _save_settings ⟨[], none, false, []⟩ = .error "Config file not set" ∧
    _save_settings ⟨[], some "test.json", false, []⟩ = .error "Config loader not set" :=
  ⟨(save_requires_config _).1 rfl, (save_requires_config _).2 (by simp) rfl⟩
